import Mathlib

/-!
Verification of screenshot-manager (`src/main.rs`) against its specification.

Modelling conventions (shallow embedding):

* The filesystem is an in-memory tree (`FSNode`).  Paths are lists of name
  components relative to the watched root.  Symbolic-link targets are likewise
  stored root-relative: the program only ever creates links whose target lies
  below the root, so the absolute prefix is constant and dropped.
* Directory entries are association lists; real directories have unique
  names, so removal removes every entry with the given name.
* Path resolution (`resolve`, used for `Path::exists` / `Path::is_file`)
  follows symbolic links; a fuel bound plays the role of the kernel's ELOOP
  limit (a resolution that runs out of fuel does not exist, exactly as a
  too-deep symlink chain makes `exists()` return false).  Write operations
  (`rename`, `create_dir_all`, `remove_file`, `symlink`) act on literal
  component paths; no scenario in the claims routes a write through a
  symbolic link.
* Rust's regex class `\d` (Unicode) is modelled as the ASCII digits and `.`
  as any character other than a newline; every input appearing in a claim is
  ASCII.
* Machine integers: directory names are parsed with `u32::from_str`, modelled
  as `parseU32 : String -> Option Nat` with the explicit bound `2^32`.
* Effectful functions return the filesystem after the call, the list of
  performed `Action`s (the observable side effects: moves, directory
  creations, symlink removal/creation, warnings, and one `refreshedLatest`
  marker per `update_latest` invocation), and an optional error, mirroring
  `anyhow::Result`.  An error field of `some e` is a `Err(e)` return; the
  filesystem component then still records any effects performed before the
  failure, as on a real filesystem.
-/

/-- A node of the modelled filesystem: a regular file, a symbolic link with a
root-relative target, or a directory with named entries. -/
inductive FSNode where
  | file : FSNode
  | symlink (target : List String) : FSNode
  | dir (entries : List (String × FSNode)) : FSNode

/-- First entry with the given name, as `readdir`/`openat` would find it. -/
def findEntry (es : List (String × FSNode)) (name : String) : Option FSNode :=
  match es with
  | [] => none
  | (n, node) :: rest => if n = name then some node else findEntry rest name

/-- Replace the value of the (unique) entry with the given name. -/
def replaceEntry (es : List (String × FSNode)) (name : String) (node : FSNode) :
    List (String × FSNode) :=
  match es with
  | [] => []
  | (n, old) :: rest =>
    if n = name then (n, node) :: rest else (n, old) :: replaceEntry rest name node

/-- Remove every entry with the given name (real directories are duplicate-free,
so this is ordinary removal on every reachable state). -/
def removeEntry (es : List (String × FSNode)) (name : String) :
    List (String × FSNode) :=
  es.filter (fun e => !(e.1 = name : Bool))

/-- Insert or overwrite the entry with the given name. -/
def upsertEntry (es : List (String × FSNode)) (name : String) (node : FSNode) :
    List (String × FSNode) :=
  match es with
  | [] => [(name, node)]
  | (n, old) :: rest =>
    if n = name then (n, node) :: rest else (n, old) :: upsertEntry rest name node

/-- Follow a literal component path, never traversing symbolic links
(`symlink_metadata` view). -/
def getAt (fs : FSNode) (p : List String) : Option FSNode :=
  match p with
  | [] => some fs
  | c :: cs =>
    match fs with
    | .dir es =>
      match findEntry es c with
      | some sub => getAt sub cs
      | none => none
    | _ => none

/-- Path resolution following symbolic links (the `stat` view used by
`Path::exists` and `Path::is_file`).  `top` is the watched root, against which
root-relative link targets are resolved; the fuel bounds the number of
resolution steps, standing in for the kernel's symlink-loop limit. -/
def resolveFrom (fuel : Nat) (top : FSNode) (cur : FSNode) (p : List String) :
    Option FSNode :=
  match fuel with
  | 0 => none
  | fuel + 1 =>
    match cur with
    | .symlink t => resolveFrom fuel top top (t ++ p)
    | .file => if p = [] then some FSNode.file else none
    | .dir es =>
      match p with
      | [] => some (FSNode.dir es)
      | c :: cs =>
        match findEntry es c with
        | some sub => resolveFrom fuel top sub cs
        | none => none

/-- Resolve a root-relative path in the tree rooted at `fs`. -/
def resolve (fs : FSNode) (p : List String) : Option FSNode :=
  resolveFrom 64 fs fs p

/-- `Path::is_symlink`: the entry itself, links not followed. -/
def isSymlinkAt (fs : FSNode) (p : List String) : Bool :=
  match getAt fs p with
  | some (.symlink _) => true
  | _ => false

/-- `fs::read_dir`: the entries of the directory the path resolves to. -/
def readDirAt (fs : FSNode) (p : List String) : Option (List (String × FSNode)) :=
  match resolve fs p with
  | some (.dir es) => some es
  | _ => none

def isDirNode : FSNode → Bool
  | .dir _ => true
  | _ => false

/-- `DirEntry::file_type().is_dir()`: entry kinds are reported without
following links, so symlink entries are not directories here. -/
def dirNames (es : List (String × FSNode)) : List String :=
  (es.filter fun e => isDirNode e.2).map Prod.fst

/-- `u32::from_str`: an optional `+` sign, then one or more ASCII digits,
value below `2^32`; anything else is a parse error. -/
def parseU32 (s : String) : Option Nat :=
  let cs := match s.data with
    | '+' :: rest => rest
    | cs => cs
  if cs = [] then none
  else if cs.all Char.isDigit then
    let v := cs.foldl (fun a c => a * 10 + (c.toNat - 48)) 0
    if v < 4294967296 then some v else none
  else none

/-- `s.parse::<u32>().unwrap_or(0)`. -/
def parseVal (s : String) : Nat := (parseU32 s).getD 0

/-- The fold in `update_latest`: running maximum of the parsed names,
starting from 0 (`main.rs` lines 95-97). -/
def maxNameFold (names : List String) : Nat :=
  names.foldl (fun acc s => Nat.max (parseVal s) acc) 0

/-- `format!("{:0>2}", n)`: decimal, left-padded with `0` to width 2. -/
def pad2 (n : Nat) : String :=
  let s := toString n
  if s.length < 2 then "0" ++ s else s

/-- The fixed other-bucket directory name (`main.rs` line 28). -/
def OTHER : String := "other"

/-- The name of the latest-pointer entry (`main.rs` line 27). -/
def LATEST : String := "latest"

/-- The trailing part `.*\.png$` of `NAME_REGEX`, matched against the
characters after the ten date characters: `.` is any character but a newline,
and `$` anchors the literal `.png` at the end of the name. -/
def tailOk (t : List Char) : Bool :=
  decide (4 ≤ t.length) && (t.take (t.length - 4)).all (fun c => !(c == '\n'))
    && (t.drop (t.length - 4) == ['.', 'p', 'n', 'g'])

/-- One attempt of `NAME_REGEX` at a fixed start position: four digits,
dash, two digits, dash, two digits, then `.*\.png$`.  Returns the literal
year, month and day captures. -/
def dateAt (t : List Char) : Option (List Char × List Char × List Char) :=
  match t with
  | y1 :: y2 :: y3 :: y4 :: '-' :: m1 :: m2 :: '-' :: d1 :: d2 :: rest =>
    if ([y1, y2, y3, y4, m1, m2, d1, d2].all Char.isDigit && tailOk rest) = true then
      some ([y1, y2, y3, y4], [m1, m2], [d1, d2])
    else none
  | _ => none

/-- `NAME_REGEX.captures`: the regex is unanchored on the left, so the engine
returns the match at the leftmost starting position that admits one. -/
def findCaptures (t : List Char) : Option (List Char × List Char × List Char) :=
  match dateAt t with
  | some r => some r
  | none =>
    match t with
    | [] => none
    | _ :: rest => findCaptures rest

/-- The destination subpath chosen by `update_file` for a filename
(`main.rs` lines 72-88): the verbatim captures `[year, month, day]` on a
regex match, the other bucket otherwise. -/
def classifyDest (filename : String) : List String :=
  match findCaptures filename.data with
  | some (y, m, d) => [String.mk y, String.mk m, String.mk d]
  | none => [OTHER]

/-- `Path::is_file`: the path resolves (links followed) to a regular file. -/
def isFileAt (fs : FSNode) (p : List String) : Bool :=
  match resolve fs p with
  | some FSNode.file => true
  | _ => false

/-- Observable side effects of the program, in performance order.
`refreshedLatest` marks one invocation of `update_latest`; the `logged…`
actions record the `eprintln` lines with which a caller swallows a per-item
error and continues. -/
inductive Act where
  | createdDir (p : List String)
  | moved (src dst : List String)
  | loggedMoveError (p : List String)
  | refreshedLatest
  | warnedNotSymlink
  | warnedMissing (p : List String)
  | removedLatest
  | linkedLatest (target : List String)
  | loggedLatestError
deriving DecidableEq

/-- Error values, tagged with the operation and path that failed. -/
inductive FErr where
  | readDirErr (p : List String)
  | createDirErr (p : List String)
  | renameErr (src dst : List String)
  | symlinkErr (p : List String)
deriving DecidableEq

/-- Set the node at a non-empty literal path whose parent chain consists of
existing directories; `none` when the chain is broken (`ENOENT`/`ENOTDIR`). -/
def setAt (fs : FSNode) (p : List String) (node : FSNode) : Option FSNode :=
  match fs, p with
  | .dir es, [c] => some (.dir (upsertEntry es c node))
  | .dir es, c :: cs =>
    match findEntry es c with
    | some sub => (setAt sub cs node).map fun sub' => FSNode.dir (replaceEntry es c sub')
    | none => none
  | _, _ => none

/-- `fs::rename` as used by `move_files`: the source is always a direct child
of the root.  The destination's parent chain must exist; an existing
destination entry is replaced, except that renaming a non-directory onto a
directory fails (`EISDIR`), which is the only collision case the platform
refuses for the file sources this program renames. -/
def renameFromRoot (fs : FSNode) (srcName : String) (dst : List String) :
    Option FSNode :=
  match fs with
  | .dir es =>
    match findEntry es srcName with
    | some node =>
      match getAt fs dst with
      | some (.dir _) => none
      | _ => setAt (.dir (removeEntry es srcName)) dst node
    | none => none
  | _ => none

/-- `fs::create_dir_all`: create every missing directory along the path; an
existing non-directory component is an error.  (A symlink component would be
followed by the real call; no claim scenario contains one, and the model
reports it as the error case.) -/
def createDirAll (fs : FSNode) (p : List String) : FSNode × Option FErr :=
  match p with
  | [] => (fs, none)
  | c :: cs =>
    match fs with
    | .dir es =>
      match findEntry es c with
      | some (.dir es') =>
        match createDirAll (.dir es') cs with
        | (sub, e) => (.dir (replaceEntry es c sub), e)
      | some _ => (fs, some (FErr.createDirErr p))
      | none =>
        match createDirAll (.dir []) cs with
        | (sub, e) => (.dir (es ++ [(c, sub)]), e)
    | _ => (fs, some (FErr.createDirErr p))

/-- `move_files` (`main.rs` lines 163-178): if the destination directory does
not exist (following links), create it and all intermediates; then rename
`root/file` to `root/dest/file`.  Either failure is returned to the caller. -/
def move_files (fs : FSNode) (file : String) (dest : List String) :
    FSNode × List Act × Option FErr :=
  if (resolve fs dest).isSome then
    match renameFromRoot fs file (dest ++ [file]) with
    | some fs2 => (fs2, [Act.moved [file] (dest ++ [file])], none)
    | none => (fs, [], some (FErr.renameErr [file] (dest ++ [file])))
  else
    match createDirAll fs dest with
    | (fs1, none) =>
      match renameFromRoot fs1 file (dest ++ [file]) with
      | some fs2 => (fs2, [Act.createdDir dest, Act.moved [file] (dest ++ [file])], none)
      | none => (fs1, [Act.createdDir dest], some (FErr.renameErr [file] (dest ++ [file])))
    | (fs1, some e) => (fs1, [Act.createdDir dest], some e)

/-- `update_file` (`main.rs` lines 63-91): do nothing unless the path is
currently a regular file (links followed); otherwise classify its filename
and move it into the matching partition or the other bucket. -/
def update_file (fs : FSNode) (p : List String) : FSNode × List Act × Option FErr :=
  if isFileAt fs p then
    move_files fs (p.getLastD "") (classifyDest (p.getLastD ""))
  else
    (fs, [], none)

/-- The three-level scan of `update_latest` (`main.rs` lines 99-109): at the
root, then below the chosen year, then below the chosen month, take the
maximum numeric subdirectory name; rebuild the path from the numbers (year
unpadded, month and day zero-padded to two digits).  A failing `read_dir` is
propagated. -/
def latestScan (fs : FSNode) : Except FErr (List String) :=
  match readDirAt fs [] with
  | none => Except.error (FErr.readDirErr [])
  | some es =>
    match readDirAt fs [toString (maxNameFold (dirNames es))] with
    | none => Except.error (FErr.readDirErr [toString (maxNameFold (dirNames es))])
    | some es2 =>
      match readDirAt fs [toString (maxNameFold (dirNames es)),
          pad2 (maxNameFold (dirNames es2))] with
      | none => Except.error (FErr.readDirErr [toString (maxNameFold (dirNames es)),
          pad2 (maxNameFold (dirNames es2))])
      | some es3 =>
        Except.ok [toString (maxNameFold (dirNames es)),
          pad2 (maxNameFold (dirNames es2)), pad2 (maxNameFold (dirNames es3))]

def removeRootEntry (fs : FSNode) (name : String) : FSNode :=
  match fs with
  | .dir es => .dir (removeEntry es name)
  | other => other

/-- `std::os::unix::fs::symlink(target, link)`: fails with `EEXIST` whenever
any entry — including a dangling symlink — already occupies the link path. -/
def symlinkAtRoot (fs : FSNode) (name : String) (target : List String) :
    Option FSNode :=
  match fs with
  | .dir es =>
    match findEntry es name with
    | some _ => none
    | none => some (.dir (es ++ [(name, .symlink target)]))
  | _ => none

/-- The tail of `update_latest` after the `latest`-entry handling
(`main.rs` lines 121-126): if the computed day path does not exist, warn and
return `Ok`; otherwise create the symlink (which fails with `EEXIST` if an
entry — e.g. a dangling link — still occupies `root/latest`). -/
def finishLatest (fs1 : FSNode) (acts : List Act) (dayPath : List String) :
    FSNode × List Act × Option FErr :=
  if (resolve fs1 dayPath).isSome then
    match symlinkAtRoot fs1 LATEST dayPath with
    | some fs2 => (fs2, acts ++ [Act.linkedLatest dayPath], none)
    | none => (fs1, acts, some (FErr.symlinkErr [LATEST]))
  else (fs1, acts ++ [Act.warnedMissing dayPath], none)

/-- `update_latest` (`main.rs` lines 93-129).  After the scan: if `root/latest`
exists (links followed) but is not itself a symlink, warn and return `Ok`
without touching it; if it exists and is a symlink, remove it; then proceed
to `finishLatest`. -/
def update_latest (fs : FSNode) : FSNode × List Act × Option FErr :=
  match latestScan fs with
  | Except.error e => (fs, [Act.refreshedLatest], some e)
  | Except.ok dayPath =>
    if (resolve fs [LATEST]).isSome then
      if isSymlinkAt fs [LATEST] then
        finishLatest (removeRootEntry fs LATEST)
          [Act.refreshedLatest, Act.removedLatest] dayPath
      else
        (fs, [Act.refreshedLatest, Act.warnedNotSymlink], none)
    else
      finishLatest fs [Act.refreshedLatest] dayPath

/-- One entry of the startup sweep: run `update_file`; on failure record the
`(path, error)` line and continue with the next entry (`main.rs` 136-153). -/
def sweepStep (st : FSNode × List Act) (name : String) : FSNode × List Act :=
  match update_file st.1 [name] with
  | (fs1, acts, none) => (fs1, st.2 ++ acts)
  | (fs1, acts, some _) => (fs1, st.2 ++ acts ++ [Act.loggedMoveError [name]])

/-- After the sweep, `clean_directory` calls `update_latest` once and
propagates its error (`main.rs` line 156). -/
def finishClean (swept : FSNode × List Act) : FSNode × List Act × Option FErr :=
  ((update_latest swept.1).1,
   swept.2 ++ (update_latest swept.1).2.1,
   (update_latest swept.1).2.2)

/-- `clean_directory` (`main.rs` lines 131-161): list the root (a failure here
is returned to the caller), run `update_file` on every entry swallowing
per-entry errors, then call `update_latest` once, propagating its error. -/
def clean_directory (fs : FSNode) : FSNode × List Act × Option FErr :=
  match readDirAt fs [] with
  | none => (fs, [], some (FErr.readDirErr []))
  | some es => finishClean ((es.map Prod.fst).foldl sweepStep (fs, []))

/-- The event kinds the watcher can deliver; the loop acts only on
`accessCloseWrite` (`EventKind::Access(AccessKind::Close(AccessMode::Write))`). -/
inductive EvKind where
  | accessCloseWrite
  | accessCloseRead
  | createKind
  | modifyKind
  | removeKind
  | otherKind
deriving DecidableEq

/-- A filesystem notification: a kind and the affected paths. -/
structure NEvent where
  kind : EvKind
  paths : List (List String)

/-- Per-path handling inside the close-write branch (`main.rs` 291-298): a
path that is currently a file is fed to `update_file` (errors are logged and
swallowed) and marks the batch as having done work. -/
def handlePath (st : FSNode × List Act × Bool) (p : List String) :
    FSNode × List Act × Bool :=
  if isFileAt st.1 p then
    match update_file st.1 p with
    | (fs1, acts, none) => (fs1, st.2.1 ++ acts, true)
    | (fs1, acts, some _) => (fs1, st.2.1 ++ acts ++ [Act.loggedMoveError p], true)
  else
    (st.1, st.2.1, st.2.2)

/-- The body of the watch loop for one successfully received event
(`main.rs` 288-305): only close-write events are acted on; afterwards
`update_latest` runs once if any path was processed, its error being logged
and swallowed. -/
def afterBatch (r : FSNode × List Act × Bool) : FSNode × List Act :=
  if r.2.2 then
    match update_latest r.1 with
    | (fs2, uacts, none) => (fs2, r.2.1 ++ uacts)
    | (fs2, uacts, some _) => (fs2, r.2.1 ++ uacts ++ [Act.loggedLatestError])
  else (r.1, r.2.1)

def loopBody (fs : FSNode) (ev : NEvent) : FSNode × List Act :=
  if ev.kind = EvKind.accessCloseWrite then
    afterBatch (ev.paths.foldl handlePath (fs, [], false))
  else (fs, [])

/-- Result of one iteration of the watch loop: terminate the process with an
exit status, or continue with the new filesystem state. -/
inductive LoopResult where
  | exitCode (n : Nat)
  | continueWith (fs : FSNode) (acts : List Act)

/-- One iteration of the watch loop (`main.rs` 263-306).  `msg` is the result
of `rx.recv()`: `none` when the channel is broken, `some (Except.error _)` for
an error item in the stream, `some (Except.ok ev)` for a real event.
`running` is the shared atomic flag, `true` until a shutdown signal stores
`false`. -/
def loopStep (running : Bool) (fs : FSNode) (msg : Option (Except String NEvent)) :
    LoopResult :=
  match msg with
  | none => LoopResult.exitCode 1
  | some (Except.error _) =>
    if !running then LoopResult.exitCode 0 else LoopResult.exitCode 1
  | some (Except.ok ev) =>
    let r := loopBody fs ev
    LoopResult.continueWith r.1 r.2

/-- Number of `update_latest` invocations recorded in a trace. -/
def isRefresh : Act → Bool
  | Act.refreshedLatest => true
  | _ => false

def countRefresh (acts : List Act) : Nat := (acts.filter isRefresh).length

/-! ## Specification-side definitions

These follow the wording of the spec, to be compared with the definitions
translated from the source. -/

/-- Spec, Classifier: the anchored date pattern
`^\d{4}-\d{2}-\d{2}.*\.png$` holding of a character list `t`, with the three
captures `y`, `m`, `d` taken verbatim.  `DateShape (t.drop i) y m d` states
that the unanchored pattern matches at start position `i`. -/
def DateShape (t y m d : List Char) : Prop :=
  ∃ mid, t = y ++ '-' :: (m ++ '-' :: (d ++ (mid ++ ['.', 'p', 'n', 'g'])))
    ∧ y.length = 4 ∧ m.length = 2 ∧ d.length = 2
    ∧ (∀ c ∈ y ++ m ++ d, c.isDigit = true)
    ∧ (∀ c ∈ mid, c ≠ '\n')

/-- Spec, LatestPointer step 1: "among names parseable as non-negative
integers, take the maximum (missing/unparsable entries count as 0)". -/
def specMax (names : List String) : Nat :=
  (names.map parseVal).foldr Nat.max 0

/-! ## Association-list lemmas -/

theorem findEntry_replaceEntry_self (es : List (String × FSNode)) (name : String)
    (node : FSNode) (h : findEntry es name ≠ none) :
    findEntry (replaceEntry es name node) name = some node := by
  induction es with
  | nil => simp [findEntry] at h
  | cons e rest ih =>
    obtain ⟨n, old⟩ := e
    by_cases hn : n = name
    · subst hn
      simp [replaceEntry, findEntry]
    · simp [replaceEntry, findEntry, hn] at h ⊢
      exact ih h

theorem findEntry_replaceEntry_ne (es : List (String × FSNode)) (name other : String)
    (node : FSNode) (h : other ≠ name) :
    findEntry (replaceEntry es name node) other = findEntry es other := by
  induction es with
  | nil => simp [replaceEntry]
  | cons e rest ih =>
    obtain ⟨n, old⟩ := e
    by_cases hn : n = name
    · subst hn
      have hno : ¬ n = other := fun hh => h (hh ▸ rfl)
      simp [replaceEntry, findEntry, hno]
    · simp [replaceEntry, findEntry, hn, ih]

theorem findEntry_upsertEntry_self (es : List (String × FSNode)) (name : String)
    (node : FSNode) :
    findEntry (upsertEntry es name node) name = some node := by
  induction es with
  | nil => simp [upsertEntry, findEntry]
  | cons e rest ih =>
    obtain ⟨n, old⟩ := e
    by_cases hn : n = name
    · subst hn; simp [upsertEntry, findEntry]
    · simp [upsertEntry, findEntry, hn, ih]

theorem findEntry_upsertEntry_ne (es : List (String × FSNode)) (name other : String)
    (node : FSNode) (h : other ≠ name) :
    findEntry (upsertEntry es name node) other = findEntry es other := by
  induction es with
  | nil =>
    have hno : ¬ name = other := fun hh => h hh.symm
    simp [upsertEntry, findEntry, hno]
  | cons e rest ih =>
    obtain ⟨n, old⟩ := e
    by_cases hn : n = name
    · subst hn
      have hno : ¬ n = other := fun hh => h (hh ▸ rfl)
      simp [upsertEntry, findEntry, hno]
    · simp [upsertEntry, findEntry, hn, ih]

theorem findEntry_removeEntry_self (es : List (String × FSNode)) (name : String) :
    findEntry (removeEntry es name) name = none := by
  induction es with
  | nil => simp [removeEntry, findEntry]
  | cons e rest ih =>
    obtain ⟨n, old⟩ := e
    by_cases hn : n = name
    · subst hn; simpa [removeEntry, findEntry] using ih
    · simpa [removeEntry, findEntry, hn] using ih

theorem findEntry_removeEntry_ne (es : List (String × FSNode)) (name other : String)
    (h : other ≠ name) :
    findEntry (removeEntry es name) other = findEntry es other := by
  induction es with
  | nil => simp [removeEntry]
  | cons e rest ih =>
    obtain ⟨n, old⟩ := e
    by_cases hn : n = name
    · subst hn
      have hno : ¬ n = other := fun hh => h (hh ▸ rfl)
      simpa [removeEntry, findEntry, hno] using ih
    · by_cases hno : n = other
      · subst hno
        simp [removeEntry, findEntry, hn]
      · simpa [removeEntry, findEntry, hn, hno] using ih

theorem findEntry_append (es es' : List (String × FSNode)) (name : String) :
    findEntry (es ++ es') name =
      (match findEntry es name with
       | some n => some n
       | none => findEntry es' name) := by
  induction es with
  | nil => simp [findEntry]
  | cons e rest ih =>
    obtain ⟨n, old⟩ := e
    by_cases hn : n = name <;> simp [findEntry, hn, ih]

/-! ## Resolution helpers -/

theorem resolve_root_dir (es : List (String × FSNode)) :
    resolve (FSNode.dir es) [] = some (FSNode.dir es) := rfl

theorem readDirAt_root_dir (es : List (String × FSNode)) :
    readDirAt (FSNode.dir es) [] = some es := rfl

theorem resolve_dir_cons (es : List (String × FSNode)) (c : String) (cs : List String) :
    resolve (FSNode.dir es) (c :: cs) =
      (match findEntry es c with
       | some sub => resolveFrom 63 (FSNode.dir es) sub cs
       | none => none) := rfl

theorem resolveFrom_dir_nil (fuel : Nat) (top : FSNode) (es : List (String × FSNode)) :
    resolveFrom (fuel + 1) top (FSNode.dir es) [] = some (FSNode.dir es) := rfl

theorem resolveFrom_file_nil (fuel : Nat) (top : FSNode) :
    resolveFrom (fuel + 1) top FSNode.file [] = some FSNode.file := rfl

/-- A root entry that is not a symlink resolves to itself. -/
theorem resolve_root_entry (es : List (String × FSNode)) (name : String) (n : FSNode)
    (h : findEntry es name = some n) (hn : ∀ t, n ≠ FSNode.symlink t) :
    resolve (FSNode.dir es) [name] = some n := by
  rw [resolve_dir_cons, h]
  cases n with
  | file => rfl
  | dir es' => rfl
  | symlink t => exact absurd rfl (hn t)

/-- A one-component path whose entry is missing does not resolve. -/
theorem resolve_root_missing (es : List (String × FSNode)) (name : String)
    (h : findEntry es name = none) :
    resolve (FSNode.dir es) [name] = none := by
  rw [resolve_dir_cons, h]

/-! ## The two maximum computations agree -/

theorem foldl_max_eq (f : String → Nat) (l : List String) (a : Nat) :
    l.foldl (fun acc s => Nat.max (f s) acc) a = Nat.max a ((l.map f).foldr Nat.max 0) := by
  induction l generalizing a with
  | nil => simp
  | cons x xs ih =>
    simp only [List.foldl_cons, List.map_cons, List.foldr_cons]
    rw [ih]
    simp [Nat.max_comm, Nat.max_left_comm, Nat.max_assoc]

/-- The running maximum computed by the code equals the maximum described by
the spec. -/
theorem maxNameFold_eq_specMax (names : List String) :
    maxNameFold names = specMax names := by
  simpa [maxNameFold, specMax] using foldl_max_eq parseVal names 0

/-! ## List-shape helpers -/

theorem exists_length_four {α : Type} (l : List α) (h : l.length = 4) :
    ∃ a b c d, l = [a, b, c, d] := by
  rcases l with _ | ⟨a, _ | ⟨b, _ | ⟨c, _ | ⟨d, _ | ⟨e, l⟩⟩⟩⟩⟩ <;> simp_all

theorem exists_length_two {α : Type} (l : List α) (h : l.length = 2) :
    ∃ a b, l = [a, b] := by
  rcases l with _ | ⟨a, _ | ⟨b, _ | ⟨c, l⟩⟩⟩ <;> simp_all

/-! ## Classifier: the executable matcher against the declarative pattern -/

theorem findCaptures_nil : findCaptures [] = none := by
  simp only [findCaptures, dateAt]

theorem findCaptures_cons (c : Char) (rest : List Char) :
    findCaptures (c :: rest) =
      (match dateAt (c :: rest) with
       | some r => some r
       | none => findCaptures rest) := by
  cases h : dateAt (c :: rest) with
  | none => simp only [findCaptures, h]
  | some r => simp only [findCaptures, h]

/-- The single-position matcher recognises exactly the anchored date shape,
with exactly the verbatim captures. -/
theorem dateAt_some_iff (t y m d : List Char) :
    dateAt t = some (y, m, d) ↔ DateShape t y m d := by
  constructor
  · intro h
    unfold dateAt at h
    split at h
    · rename_i y1 y2 y3 y4 m1 m2 d1 d2 rest
      split at h
      · rename_i hcond
        rw [Bool.and_eq_true] at hcond
        obtain ⟨hdig, htail⟩ := hcond
        rw [List.all_eq_true] at hdig
        unfold tailOk at htail
        rw [Bool.and_eq_true, Bool.and_eq_true] at htail
        obtain ⟨⟨hlen, hmid⟩, hdrop⟩ := htail
        rw [List.all_eq_true] at hmid
        rw [beq_iff_eq] at hdrop
        simp only [Option.some.injEq, Prod.mk.injEq] at h
        obtain ⟨hy, hm, hd⟩ := h
        subst hy; subst hm; subst hd
        have hsplit : rest = rest.take (rest.length - 4) ++ ['.', 'p', 'n', 'g'] := by
          conv_lhs => rw [← List.take_append_drop (rest.length - 4) rest]
          rw [hdrop]
        refine ⟨rest.take (rest.length - 4), ?_, rfl, rfl, rfl, ?_, ?_⟩
        · rw [hsplit]
          simp
        · intro c hc
          apply hdig
          simp at hc ⊢
          tauto
        · intro c hc
          simpa using hmid c hc
      · exact absurd h (by simp)
    · exact absurd h (by simp)
  · rintro ⟨mid, ht, hy, hm, hd, hdig, hmid⟩
    obtain ⟨y1, y2, y3, y4, rfl⟩ := exists_length_four y hy
    obtain ⟨m1, m2, rfl⟩ := exists_length_two m hm
    obtain ⟨d1, d2, rfl⟩ := exists_length_two d hd
    subst ht
    have hlen4 : (mid ++ ['.', 'p', 'n', 'g']).length - 4 = mid.length := by simp
    have hcond : ([y1, y2, y3, y4, m1, m2, d1, d2].all Char.isDigit
        && tailOk (mid ++ ['.', 'p', 'n', 'g'])) = true := by
      rw [Bool.and_eq_true]
      constructor
      · rw [List.all_eq_true]
        intro c hc
        apply hdig
        simp at hc ⊢
        tauto
      · unfold tailOk
        rw [Bool.and_eq_true, Bool.and_eq_true]
        refine ⟨⟨by simp, ?_⟩, ?_⟩
        · rw [hlen4, List.take_left, List.all_eq_true]
          intro c hc
          simpa using hmid c hc
        · rw [hlen4, List.drop_left]
          simp
    simp only [List.cons_append, List.nil_append]
    simp only [dateAt]
    rw [if_pos hcond]

/-- `findCaptures` returns exactly the captures of the leftmost position at
which the single-position matcher succeeds. -/
theorem findCaptures_eq_some_iff (t : List Char)
    (r : List Char × List Char × List Char) :
    findCaptures t = some r ↔
      ∃ i, dateAt (t.drop i) = some r ∧ ∀ j < i, dateAt (t.drop j) = none := by
  induction t with
  | nil =>
    rw [findCaptures_nil]
    simp [dateAt]
  | cons c rest ih =>
    rw [findCaptures_cons]
    cases h : dateAt (c :: rest) with
    | some r' =>
      simp only [h]
      constructor
      · intro heq
        obtain rfl : r' = r := Option.some.inj heq
        exact ⟨0, by simpa using h, by omega⟩
      · rintro ⟨i, hi, hlt⟩
        cases i with
        | zero =>
          rw [List.drop_zero, h] at hi
          exact hi
        | succ i =>
          have h0 := hlt 0 (Nat.succ_pos i)
          rw [List.drop_zero, h] at h0
          exact absurd h0 (by simp)
    | none =>
      simp only [h]
      rw [ih]
      constructor
      · rintro ⟨i, hi, hlt⟩
        refine ⟨i + 1, by simpa using hi, ?_⟩
        intro j hj
        cases j with
        | zero => simpa using h
        | succ j => simpa using hlt j (by omega)
      · rintro ⟨i, hi, hlt⟩
        cases i with
        | zero =>
          rw [List.drop_zero, h] at hi
          exact absurd hi (by simp)
        | succ i =>
          refine ⟨i, by simpa using hi, fun j hj => ?_⟩
          simpa using hlt (j + 1) (by omega)

/-- `findCaptures` fails exactly when no position matches. -/
theorem findCaptures_eq_none_iff (t : List Char) :
    findCaptures t = none ↔ ∀ i, dateAt (t.drop i) = none := by
  induction t with
  | nil =>
    rw [findCaptures_nil]
    simp [dateAt]
  | cons c rest ih =>
    rw [findCaptures_cons]
    cases h : dateAt (c :: rest) with
    | some r' =>
      simp only [h]
      constructor
      · intro hh
        exact absurd hh (by simp)
      · intro hall
        have h0 := hall 0
        rw [List.drop_zero, h] at h0
        exact absurd h0 (by simp)
    | none =>
      simp only [h]
      rw [ih]
      constructor
      · intro hall i
        cases i with
        | zero => simpa using h
        | succ i => simpa using hall i
      · intro hall i
        simpa using hall (i + 1)

/-! ## Claim C1 -/

/-- Claim C1, counterexample.  The claim requires every filename NOT matching
the doubly anchored pattern `^\d{4}-\d{2}-\d{2}.*\.png$` to be classified
into the other bucket.  The filename `x2023-05-09.png` does not match at
position 0 (`dateAt` of the full name fails: the name starts with `x`), yet
the classifier returns `2023/05/09`, because `NAME_REGEX` has no `^` anchor
and matches from position 1. -/
theorem C1_counterexample :
    dateAt ("x2023-05-09.png".data) = none
    ∧ classifyDest "x2023-05-09.png" = ["2023", "05", "09"]
    ∧ ["2023", "05", "09"] ≠ [OTHER] :=
  ⟨rfl, rfl, by decide⟩

/-- Claim C1 as amended: the pattern is anchored at the end only.  If the
date shape `\d{4}-\d{2}-\d{2}.*\.png$` matches at some position of the
filename, the classifier returns `YYYY/MM/DD` built verbatim from the
captures of the leftmost matching position; if it matches at no position,
the classifier returns the fixed other-bucket name. -/
theorem C1_classifier :
    (∀ (s : String) (i : Nat) (y m d : List Char),
       DateShape (s.data.drop i) y m d →
       (∀ j, j < i → ∀ y' m' d', ¬ DateShape (s.data.drop j) y' m' d') →
       classifyDest s = [String.mk y, String.mk m, String.mk d])
    ∧ (∀ s : String,
       (∀ i y m d, ¬ DateShape (s.data.drop i) y m d) →
       classifyDest s = [OTHER]) := by
  constructor
  · intro s i y m d hshape hleft
    have hsome : findCaptures s.data = some (y, m, d) := by
      rw [findCaptures_eq_some_iff]
      refine ⟨i, (dateAt_some_iff _ y m d).mpr hshape, ?_⟩
      intro j hj
      cases h : dateAt (s.data.drop j) with
      | none => rfl
      | some r =>
        obtain ⟨y', m', d'⟩ := r
        exact absurd ((dateAt_some_iff _ _ _ _).mp h) (hleft j hj y' m' d')
    simp only [classifyDest, hsome]
  · intro s hnone
    have hcap : findCaptures s.data = none := by
      rw [findCaptures_eq_none_iff]
      intro i
      cases h : dateAt (s.data.drop i) with
      | none => rfl
      | some r =>
        obtain ⟨y, m, d⟩ := r
        exact absurd ((dateAt_some_iff _ _ _ _).mp h) (hnone i y m d)
    simp only [classifyDest, hcap]

/-- Witness for C1: the date shape matches `2023-05-09-shot.png` at position
0, and the classifier indeed returns `2023/05/09`. -/
theorem C1_classifier_witness :
    classifyDest "2023-05-09-shot.png" = ["2023", "05", "09"] :=
  C1_classifier.1 "2023-05-09-shot.png" 0 "2023".data "05".data "09".data
    ⟨"-shot".data, by decide, by decide, by decide, by decide, by decide, by decide⟩
    (fun j hj => absurd hj (Nat.not_lt_zero j))

theorem getAt_root_one (es : List (String × FSNode)) (name : String) :
    getAt (FSNode.dir es) [name] = findEntry es name := by
  cases h : findEntry es name <;> simp [getAt, h]

/-! ## Claim C2 -/

/-- Claim C2 (code bug).  The spec requires an empty watched root to yield
`year = month = day = 0` with only a logged warning and no error, but the
code computes `year = 0` and then propagates the `NotFound` error of
`fs::read_dir(root/"0")` with `?`, so `update_latest` returns `Err` and the
startup `clean_directory` pass fails (making `main` exit with status 1). -/
theorem C2_empty_root :
    update_latest (FSNode.dir []) =
      (FSNode.dir [], [Act.refreshedLatest], some (FErr.readDirErr ["0"]))
    ∧ clean_directory (FSNode.dir []) =
      (FSNode.dir [], [Act.refreshedLatest], some (FErr.readDirErr ["0"])) :=
  ⟨rfl, rfl⟩

/-! ## Claim C3 -/

/-- Claim C3, counterexample.  The claim says that whenever a non-symlink
entry occupies `root/latest`, `update_latest` returns without error; but on
the root whose only entry is a regular file named `latest` the three-level
scan fails (`root/0` does not exist) and `update_latest` returns that error —
the entry is indeed left untouched, yet an error is returned. -/
theorem C3_counterexample :
    getAt (FSNode.dir [("latest", FSNode.file)]) ["latest"] = some FSNode.file
    ∧ (update_latest (FSNode.dir [("latest", FSNode.file)])).2.2 ≠ none :=
  ⟨rfl, by decide⟩

/-- Claim C3 as amended: whenever an entry that is not a symbolic link
occupies `root/latest`, `update_latest` never deletes or replaces it (the
filesystem is returned unchanged and the entry still present), and — provided
the three-level scan succeeds — the refresh is skipped with a warning and no
error is returned. -/
theorem C3_latest_preserved :
    ∀ (fs n : FSNode), getAt fs ["latest"] = some n →
    (∀ t, n ≠ FSNode.symlink t) →
    (update_latest fs).1 = fs
    ∧ getAt (update_latest fs).1 ["latest"] = some n
    ∧ ∀ p, latestScan fs = Except.ok p →
        update_latest fs = (fs, [Act.refreshedLatest, Act.warnedNotSymlink], none) := by
  intro fs n hget hn
  obtain ⟨es, rfl⟩ : ∃ es, fs = FSNode.dir es := by
    cases fs with
    | dir es => exact ⟨es, rfl⟩
    | file => simp [getAt] at hget
    | symlink t => simp [getAt] at hget
  rw [getAt_root_one] at hget
  have hres : resolve (FSNode.dir es) [LATEST] = some n :=
    resolve_root_entry es LATEST n hget hn
  have hsym : isSymlinkAt (FSNode.dir es) [LATEST] = false := by
    unfold isSymlinkAt
    rw [show ([LATEST] : List String) = ["latest"] from rfl, getAt_root_one, hget]
    cases n with
    | file => rfl
    | dir es' => rfl
    | symlink t => exact absurd rfl (hn t)
  cases hscan : latestScan (FSNode.dir es) with
  | error e =>
    refine ⟨by simp [update_latest, hscan], ?_, ?_⟩
    · simp [update_latest, hscan, getAt_root_one, hget]
    · intro p hp
      exact absurd hp (by simp)
  | ok dayPath =>
    refine ⟨by simp [update_latest, hscan, hres, hsym], ?_, ?_⟩
    · simp [update_latest, hscan, hres, hsym, getAt_root_one, hget]
    · intro p hp
      simp [update_latest, hscan, hres, hsym]

/-- A root carrying the partition `2023/05/09` and a regular file named
`latest`. -/
def c3Root : FSNode :=
  FSNode.dir [("2023", FSNode.dir [("05", FSNode.dir [("09", FSNode.dir [])])]),
    ("latest", FSNode.file)]

/-- Witness for C3: on `c3Root` the scan succeeds and the refresh is skipped
with a warning, the regular file `latest` untouched. -/
theorem C3_latest_preserved_witness :
    update_latest c3Root = (c3Root, [Act.refreshedLatest, Act.warnedNotSymlink], none) :=
  (C3_latest_preserved c3Root FSNode.file rfl (fun _t h => FSNode.noConfusion h)).2.2
    ["2023", "05", "09"] rfl

/-! ## Claim C4 -/

/-- The spec's LatestPointer example root, holding the partitions
`2022/01/01`, `2023/12/31` and `2023/01/05`. -/
def c4Root : FSNode := FSNode.dir
  [("2022", FSNode.dir [("01", FSNode.dir [("01", FSNode.dir [])])]),
   ("2023", FSNode.dir [("12", FSNode.dir [("31", FSNode.dir [])]),
                        ("01", FSNode.dir [("05", FSNode.dir [])])])]

/-- Claim C4 (confirmed): the target partition is selected hierarchically.
At each level the scan takes the spec's maximum — over the subdirectory
names, parse failures counting as 0, never below 0 (`specMax` folds `Nat.max`
from 0) — first the year at the root, then the month inside that year, then
the day inside that month.  On the spec's example root the selection is
`2023/12/31`, ignoring the sibling branches, and the symlink is created
accordingly. -/
theorem C4_latest_selection :
    (∀ (es es2 es3 : List (String × FSNode)),
       readDirAt (FSNode.dir es) [toString (specMax (dirNames es))] = some es2 →
       readDirAt (FSNode.dir es) [toString (specMax (dirNames es)),
         pad2 (specMax (dirNames es2))] = some es3 →
       latestScan (FSNode.dir es) =
         Except.ok [toString (specMax (dirNames es)), pad2 (specMax (dirNames es2)),
           pad2 (specMax (dirNames es3))])
    ∧ latestScan c4Root = Except.ok ["2023", "12", "31"]
    ∧ update_latest c4Root =
        (FSNode.dir
          [("2022", FSNode.dir [("01", FSNode.dir [("01", FSNode.dir [])])]),
           ("2023", FSNode.dir [("12", FSNode.dir [("31", FSNode.dir [])]),
                                ("01", FSNode.dir [("05", FSNode.dir [])])]),
           ("latest", FSNode.symlink ["2023", "12", "31"])],
         [Act.refreshedLatest, Act.linkedLatest ["2023", "12", "31"]], none) := by
  refine ⟨?_, rfl, rfl⟩
  intro es es2 es3 h2 h3
  unfold latestScan
  simp only [maxNameFold_eq_specMax, readDirAt_root_dir, h2, h3]

/-- Witness for C4: the general selection theorem applied to the example
root, with the entry lists of the chosen year and month discharged by
evaluation. -/
theorem C4_latest_selection_witness :
    latestScan c4Root = Except.ok ["2023", "12", "31"] :=
  C4_latest_selection.1
    [("2022", FSNode.dir [("01", FSNode.dir [("01", FSNode.dir [])])]),
     ("2023", FSNode.dir [("12", FSNode.dir [("31", FSNode.dir [])]),
                          ("01", FSNode.dir [("05", FSNode.dir [])])])]
    [("12", FSNode.dir [("31", FSNode.dir [])]),
     ("01", FSNode.dir [("05", FSNode.dir [])])]
    [("31", FSNode.dir [])] rfl rfl

/-! ## Claim C5 -/

/-- Claim C5 (confirmed): when the watch loop receives an error item from the
stream, it exits with status 0 if the shared flag records a requested
shutdown (`running = false`) and with status 1 otherwise; a broken stream
(`rx.recv()` itself failing) exits with status 1 regardless of the flag. -/
theorem C5_exit_codes :
    (∀ (fs : FSNode) (e : String),
       loopStep false fs (some (Except.error e)) = LoopResult.exitCode 0)
    ∧ (∀ (fs : FSNode) (e : String),
       loopStep true fs (some (Except.error e)) = LoopResult.exitCode 1)
    ∧ (∀ (running : Bool) (fs : FSNode),
       loopStep running fs none = LoopResult.exitCode 1) :=
  ⟨fun _ _ => rfl, fun _ _ => rfl, fun _ _ => rfl⟩

/-! ## Claim C9 -/

/-- Claim C9 (confirmed): a dangling symlink at `root/latest` is not removed,
because `latest.exists()` follows the link and reports false; when the
computed day path exists, `std::os::unix::fs::symlink` then fails on the
occupied link path and `update_latest` returns that error, the filesystem
unchanged. -/
theorem C9_dangling_latest :
    ∀ (fs : FSNode) (t p : List String),
      getAt fs ["latest"] = some (FSNode.symlink t) →
      (resolve fs ["latest"]).isSome = false →
      latestScan fs = Except.ok p →
      (resolve fs p).isSome = true →
      update_latest fs = (fs, [Act.refreshedLatest], some (FErr.symlinkErr ["latest"])) := by
  intro fs t p hget hdangle hscan hday
  obtain ⟨es, rfl⟩ : ∃ es, fs = FSNode.dir es := by
    cases fs with
    | dir es => exact ⟨es, rfl⟩
    | file => simp [getAt] at hget
    | symlink tt => simp [getAt] at hget
  rw [getAt_root_one] at hget
  have hL : ([LATEST] : List String) = ["latest"] := rfl
  unfold update_latest
  simp only [hscan, hL, hdangle]
  simp [finishLatest, symlinkAtRoot, hget, hday, LATEST]

/-- A root with the partition `2023/05/09` and a dangling `latest` symlink
pointing at the absent `1999/01/01`. -/
def c9Root : FSNode := FSNode.dir
  [("2023", FSNode.dir [("05", FSNode.dir [("09", FSNode.dir [])])]),
   ("latest", FSNode.symlink ["1999", "01", "01"])]

/-- Witness for C9: on `c9Root` the dangling link survives and the symlink
creation fails with an error. -/
theorem C9_dangling_latest_witness :
    update_latest c9Root =
      (c9Root, [Act.refreshedLatest], some (FErr.symlinkErr ["latest"])) :=
  C9_dangling_latest c9Root ["1999", "01", "01"] ["2023", "05", "09"] rfl rfl rfl rfl

/-! ## Claim C10 -/

/-- Claim C10 (confirmed): the descent path is rebuilt from the numeric
maximum, not from the directory name that produced it.  In general, whenever
no root entry is named exactly the unpadded decimal of the computed year
maximum, `update_latest`'s scan returns the `read_dir` error for that
constructed path; and on the concrete root whose maximal month directory is
named `5` (not `05`) below year `2023`, the scan errors on `2023/05`. -/
theorem C10_padding_mismatch :
    (∀ es : List (String × FSNode),
       getAt (FSNode.dir es) [toString (specMax (dirNames es))] = none →
       latestScan (FSNode.dir es) =
         Except.error (FErr.readDirErr [toString (specMax (dirNames es))]))
    ∧ latestScan (FSNode.dir [("2023", FSNode.dir
        [("5", FSNode.dir [("09", FSNode.dir [])])])]) =
      Except.error (FErr.readDirErr ["2023", "05"]) := by
  refine ⟨?_, rfl⟩
  intro es hmiss
  rw [getAt_root_one] at hmiss
  have hres : readDirAt (FSNode.dir es) [toString (specMax (dirNames es))] = none := by
    simp only [readDirAt, resolve_root_missing es _ hmiss]
  unfold latestScan
  simp only [maxNameFold_eq_specMax, readDirAt_root_dir, hres]

/-- A root whose only year directory is named `05`: the maximum parses to 5
but the rebuilt path is `root/5`, which does not exist. -/
def c10Root : FSNode := FSNode.dir [("05", FSNode.dir [("01", FSNode.dir [])])]

/-- Witness for C10: on `c10Root` the scan fails with the `read_dir` error
for the non-existent rebuilt year path `5`. -/
theorem C10_padding_mismatch_witness :
    latestScan c10Root = Except.error (FErr.readDirErr ["5"]) :=
  C10_padding_mismatch.1 [("05", FSNode.dir [("01", FSNode.dir [])])] rfl

/-! ## Counting latest refreshes -/

theorem countRefresh_append (a b : List Act) :
    countRefresh (a ++ b) = countRefresh a + countRefresh b := by
  simp [countRefresh, List.filter_append]

theorem countRefresh_move_files (fs : FSNode) (file : String) (dest : List String) :
    countRefresh (move_files fs file dest).2.1 = 0 := by
  unfold move_files
  split
  · split <;> rfl
  · split
    · split <;> rfl
    · rfl

theorem countRefresh_update_file (fs : FSNode) (p : List String) :
    countRefresh (update_file fs p).2.1 = 0 := by
  unfold update_file
  split
  · exact countRefresh_move_files fs (p.getLastD "") (classifyDest (p.getLastD ""))
  · rfl

theorem countRefresh_finishLatest (fs1 : FSNode) (acts : List Act) (p : List String) :
    countRefresh (finishLatest fs1 acts p).2.1 = countRefresh acts := by
  unfold finishLatest
  split
  · split <;> simp [countRefresh_append, countRefresh, isRefresh]
  · simp [countRefresh_append, countRefresh, isRefresh]

/-- Every call of `update_latest` records exactly one invocation marker. -/
theorem countRefresh_update_latest (fs : FSNode) :
    countRefresh (update_latest fs).2.1 = 1 := by
  unfold update_latest
  split
  · rfl
  · split
    · split
      · rw [countRefresh_finishLatest]
        rfl
      · rfl
    · rw [countRefresh_finishLatest]
      rfl

/-- The sweep over directory entries never refreshes the latest pointer. -/
theorem countRefresh_sweep (names : List String) (fs : FSNode) (acts : List Act) :
    countRefresh ((names.foldl sweepStep (fs, acts)).2) = countRefresh acts := by
  induction names generalizing fs acts with
  | nil => rfl
  | cons n ns ih =>
    have h0 : countRefresh (update_file fs [n]).2.1 = 0 := countRefresh_update_file fs [n]
    rcases hu : update_file fs [n] with ⟨fs1, uacts, err⟩
    rw [hu] at h0
    cases err with
    | none =>
      simp only [List.foldl_cons, sweepStep, hu]
      rw [ih, countRefresh_append, h0, Nat.add_zero]
    | some e =>
      simp only [List.foldl_cons, sweepStep, hu]
      rw [ih, countRefresh_append, countRefresh_append, h0]
      simp [countRefresh, isRefresh]

/-! ## Claim C6 -/

/-- The spec's batch-error-isolation scenario: three loose files, of which
`a.png` will fail to move because a directory of the same name already
occupies `other/a.png`, alongside the existing other bucket. -/
def c6Root : FSNode := FSNode.dir
  [("2024-01-02x.png", FSNode.file), ("a.png", FSNode.file), ("b.png", FSNode.file),
   ("other", FSNode.dir [("a.png", FSNode.dir [])])]

/-- Claim C6 (confirmed): a failing root listing is returned to the caller as
an error; when the listing succeeds, the pass runs `update_latest` exactly
once after the sweep, whatever the per-entry outcomes; and on the
three-file scenario the failing entry is logged and skipped while the other
two files are still relocated and the pass completes without error. -/
theorem C6_reconciler :
    (∀ fs : FSNode, readDirAt fs [] = none →
       clean_directory fs = (fs, [], some (FErr.readDirErr [])))
    ∧ (∀ (fs : FSNode) (es : List (String × FSNode)), readDirAt fs [] = some es →
       countRefresh (clean_directory fs).2.1 = 1)
    ∧ clean_directory c6Root =
        (FSNode.dir
          [("a.png", FSNode.file),
           ("other", FSNode.dir [("a.png", FSNode.dir []), ("b.png", FSNode.file)]),
           ("2024", FSNode.dir [("01", FSNode.dir [("02", FSNode.dir
              [("2024-01-02x.png", FSNode.file)])])]),
           ("latest", FSNode.symlink ["2024", "01", "02"])],
         [Act.createdDir ["2024", "01", "02"],
          Act.moved ["2024-01-02x.png"] ["2024", "01", "02", "2024-01-02x.png"],
          Act.loggedMoveError ["a.png"],
          Act.moved ["b.png"] ["other", "b.png"],
          Act.refreshedLatest,
          Act.linkedLatest ["2024", "01", "02"]], none) := by
  refine ⟨?_, ?_, rfl⟩
  · intro fs h
    unfold clean_directory
    simp only [h]
  · intro fs es h
    unfold clean_directory
    simp only [h]
    unfold finishClean
    rw [countRefresh_append, countRefresh_sweep, countRefresh_update_latest]
    rfl

/-- Witness for C6: listing a root that is not a directory fails and the
error is propagated, no sweep and no latest refresh happening. -/
theorem C6_reconciler_witness :
    clean_directory FSNode.file = (FSNode.file, [], some (FErr.readDirErr [])) :=
  C6_reconciler.1 FSNode.file rfl

/-! ## Watch-loop batch lemmas -/

theorem handlePath_not_file (st : FSNode × List Act × Bool) (p : List String)
    (h : isFileAt st.1 p = false) : handlePath st p = st := by
  unfold handlePath
  rw [h]
  rfl

theorem foldl_handlePath_no_file (ps : List (List String)) (fs : FSNode)
    (acts : List Act) (wd : Bool) (h : ∀ p ∈ ps, isFileAt fs p = false) :
    ps.foldl handlePath (fs, acts, wd) = (fs, acts, wd) := by
  induction ps with
  | nil => rfl
  | cons p ps ih =>
    rw [List.foldl_cons,
      handlePath_not_file (fs, acts, wd) p (h p (List.mem_cons_self p ps))]
    exact ih (fun q hq => h q (List.mem_cons_of_mem p hq))

theorem foldl_handlePath_wd (ps : List (List String)) (st : FSNode × List Act × Bool)
    (h : st.2.2 = true) : (ps.foldl handlePath st).2.2 = true := by
  induction ps generalizing st with
  | nil => exact h
  | cons p ps ih =>
    rw [List.foldl_cons]
    apply ih
    unfold handlePath
    split
    · split <;> rfl
    · exact h

theorem foldl_handlePath_wd_of_file (ps : List (List String)) (fs : FSNode)
    (acts : List Act) (h : ∃ p ∈ ps, isFileAt fs p = true) :
    (ps.foldl handlePath (fs, acts, false)).2.2 = true := by
  induction ps generalizing fs acts with
  | nil =>
    obtain ⟨p, hp, _⟩ := h
    exact absurd hp (List.not_mem_nil p)
  | cons q ps ih =>
    rw [List.foldl_cons]
    by_cases hq : isFileAt fs q = true
    · apply foldl_handlePath_wd
      unfold handlePath
      rw [show (fs, acts, false).1 = fs from rfl, hq, if_pos rfl]
      split <;> rfl
    · rw [handlePath_not_file (fs, acts, false) q (Bool.not_eq_true _ ▸ hq)]
      apply ih
      obtain ⟨p, hp, hf⟩ := h
      rcases List.mem_cons.mp hp with rfl | hmem
      · exact absurd hf hq
      · exact ⟨p, hmem, hf⟩

theorem countRefresh_handlePath_fold (ps : List (List String)) (fs : FSNode)
    (acts : List Act) (wd : Bool) :
    countRefresh ((ps.foldl handlePath (fs, acts, wd)).2.1) = countRefresh acts := by
  induction ps generalizing fs acts wd with
  | nil => rfl
  | cons p ps ih =>
    rw [List.foldl_cons]
    have h0 : countRefresh (update_file fs p).2.1 = 0 := countRefresh_update_file fs p
    rcases hu : update_file fs p with ⟨fs1, uacts, err⟩
    rw [hu] at h0
    cases hf : isFileAt fs p with
    | true =>
      cases err with
      | none =>
        simp only [handlePath, hf, hu, if_true]
        rw [ih, countRefresh_append, h0, Nat.add_zero]
      | some e =>
        simp only [handlePath, hf, hu, if_true]
        rw [ih, countRefresh_append, countRefresh_append, h0]
        simp [countRefresh, isRefresh]
    | false =>
      rw [handlePath_not_file (fs, acts, wd) p hf]
      exact ih fs acts wd

theorem countRefresh_afterBatch_true (r : FSNode × List Act × Bool)
    (h : r.2.2 = true) :
    countRefresh (afterBatch r).2 = countRefresh r.2.1 + 1 := by
  have h1 : countRefresh (update_latest r.1).2.1 = 1 := countRefresh_update_latest r.1
  rcases hu : update_latest r.1 with ⟨fs2, uacts, err⟩
  rw [hu] at h1
  cases err with
  | none =>
    simp only [afterBatch, h, hu, if_true]
    rw [countRefresh_append, h1]
  | some e =>
    simp only [afterBatch, h, hu, if_true]
    rw [countRefresh_append, countRefresh_append, h1]
    simp [countRefresh, isRefresh]

/-! ## Claim C7 -/

/-- A root with one date-named file and one miscellaneous file. -/
def c7Root : FSNode := FSNode.dir
  [("2024-03-01a.png", FSNode.file), ("x.txt", FSNode.file)]

/-- A close-write event reporting both files of `c7Root`. -/
def c7Ev : NEvent := ⟨EvKind.accessCloseWrite, [["2024-03-01a.png"], ["x.txt"]]⟩

/-- Claim C7 (confirmed): an event whose kind is not close-write causes no
state change and no actions; a close-write event none of whose paths is
currently a regular file likewise changes nothing; a close-write event with
at least one file path runs `update_latest` exactly once for the batch; and
on the concrete batch `c7Ev` each reported file is classified and moved
(one to its partition, one to the other bucket) followed by the single
latest refresh. -/
theorem C7_watch_filter :
    (∀ (fs : FSNode) (ev : NEvent), ev.kind ≠ EvKind.accessCloseWrite →
       loopBody fs ev = (fs, []))
    ∧ (∀ (fs : FSNode) (ev : NEvent), ev.kind = EvKind.accessCloseWrite →
       (∀ p ∈ ev.paths, isFileAt fs p = false) →
       loopBody fs ev = (fs, []))
    ∧ (∀ (fs : FSNode) (ev : NEvent), ev.kind = EvKind.accessCloseWrite →
       (∃ p ∈ ev.paths, isFileAt fs p = true) →
       countRefresh (loopBody fs ev).2 = 1)
    ∧ loopBody c7Root c7Ev =
        (FSNode.dir
          [("2024", FSNode.dir [("03", FSNode.dir [("01", FSNode.dir
              [("2024-03-01a.png", FSNode.file)])])]),
           ("other", FSNode.dir [("x.txt", FSNode.file)]),
           ("latest", FSNode.symlink ["2024", "03", "01"])],
         [Act.createdDir ["2024", "03", "01"],
          Act.moved ["2024-03-01a.png"] ["2024", "03", "01", "2024-03-01a.png"],
          Act.createdDir ["other"],
          Act.moved ["x.txt"] ["other", "x.txt"],
          Act.refreshedLatest,
          Act.linkedLatest ["2024", "03", "01"]]) := by
  refine ⟨?_, ?_, ?_, rfl⟩
  · intro fs ev hk
    unfold loopBody
    rw [if_neg hk]
  · intro fs ev hk hnone
    unfold loopBody
    rw [if_pos hk, foldl_handlePath_no_file ev.paths fs [] false hnone]
    rfl
  · intro fs ev hk hex
    unfold loopBody
    rw [if_pos hk]
    rw [countRefresh_afterBatch_true _ (foldl_handlePath_wd_of_file ev.paths fs [] hex)]
    rw [countRefresh_handlePath_fold]
    rfl

/-- Witness for C7: a modify event on the same root is ignored entirely. -/
theorem C7_watch_filter_witness :
    loopBody c7Root ⟨EvKind.modifyKind, [["2024-03-01a.png"]]⟩ = (c7Root, []) :=
  C7_watch_filter.1 c7Root ⟨EvKind.modifyKind, [["2024-03-01a.png"]]⟩ (by decide)

/-! ## Mover lemmas -/

theorem setAt_one (es : List (String × FSNode)) (c : String) (node : FSNode) :
    setAt (FSNode.dir es) [c] node = some (FSNode.dir (upsertEntry es c node)) := rfl

theorem setAt_cons (es : List (String × FSNode)) (c c2 : String) (cs : List String)
    (node : FSNode) :
    setAt (FSNode.dir es) (c :: c2 :: cs) node =
      (match findEntry es c with
       | some sub =>
         (setAt sub (c2 :: cs) node).map fun sub' => FSNode.dir (replaceEntry es c sub')
       | none => none) := rfl

/-- `create_dir_all` along `c :: cs` changes no root entry other than `c`. -/
theorem createDirAll_root_frame (es : List (String × FSNode)) (c : String)
    (cs : List String) (name : String) (h : name ≠ c) :
    ∃ es1, (createDirAll (FSNode.dir es) (c :: cs)).1 = FSNode.dir es1
      ∧ findEntry es1 name = findEntry es name := by
  unfold createDirAll
  cases hf : findEntry es c with
  | some sub =>
    cases sub with
    | dir es' =>
      rcases hr : createDirAll (FSNode.dir es') cs with ⟨sub1, err⟩
      refine ⟨replaceEntry es c sub1, by simp [hf, hr], ?_⟩
      exact findEntry_replaceEntry_ne es c name sub1 h
    | file => exact ⟨es, by simp [hf], rfl⟩
    | symlink t => exact ⟨es, by simp [hf], rfl⟩
  | none =>
    rcases hr : createDirAll (FSNode.dir []) cs with ⟨sub1, err⟩
    refine ⟨es ++ [(c, sub1)], by simp [hf, hr], ?_⟩
    rw [findEntry_append]
    cases hn : findEntry es name with
    | some x => rfl
    | none =>
      have : ¬ c = name := fun hh => h hh.symm
      simp [findEntry, this]

/-- A successful `create_dir_all` leaves a directory chain: the full target
path now resolves (literally) to a directory. -/
theorem createDirAll_ok_getAt (p : List String) :
    ∀ (es : List (String × FSNode)) (fs1 : FSNode),
    createDirAll (FSNode.dir es) p = (fs1, none) →
    ∃ es', getAt fs1 p = some (FSNode.dir es') := by
  induction p with
  | nil =>
    intro es fs1 h
    simp only [createDirAll, Prod.mk.injEq] at h
    obtain ⟨h1, -⟩ := h
    exact ⟨es, by rw [← h1]; rfl⟩
  | cons c cs ih =>
    intro es fs1 h
    cases hf : findEntry es c with
    | some sub =>
      cases sub with
      | dir es2 =>
        rcases hr : createDirAll (FSNode.dir es2) cs with ⟨sub1, err⟩
        simp only [createDirAll, hf, hr, Prod.mk.injEq] at h
        obtain ⟨h1, h2⟩ := h
        subst h2
        obtain ⟨es', hes'⟩ := ih es2 sub1 hr
        have hrepl : findEntry (replaceEntry es c sub1) c = some sub1 :=
          findEntry_replaceEntry_self es c sub1 (by rw [hf]; exact Option.noConfusion)
        exact ⟨es', by rw [← h1]; simp [getAt, hrepl, hes']⟩
      | file =>
        simp only [createDirAll, hf, Prod.mk.injEq] at h
        exact absurd h.2 (by simp)
      | symlink t =>
        simp only [createDirAll, hf, Prod.mk.injEq] at h
        exact absurd h.2 (by simp)
    | none =>
      rcases hr : createDirAll (FSNode.dir []) cs with ⟨sub1, err⟩
      simp only [createDirAll, hf, hr, Prod.mk.injEq] at h
      obtain ⟨h1, h2⟩ := h
      subst h2
      obtain ⟨es', hes'⟩ := ih [] sub1 hr
      have happ : findEntry (es ++ [(c, sub1)]) c = some sub1 := by
        rw [findEntry_append, hf]
        simp [findEntry]
      exact ⟨es', by rw [← h1]; simp [getAt, happ, hes']⟩

/-- Every branch of `create_dir_all` on a directory root returns a
directory root. -/
theorem createDirAll_cons_dir (es : List (String × FSNode)) (c : String)
    (cs : List String) (fs1 : FSNode) (e : Option FErr)
    (h : createDirAll (FSNode.dir es) (c :: cs) = (fs1, e)) :
    ∃ es1, fs1 = FSNode.dir es1 := by
  cases hf : findEntry es c with
  | some sub =>
    cases sub with
    | dir es2 =>
      rcases hr : createDirAll (FSNode.dir es2) cs with ⟨sub1, err⟩
      simp only [createDirAll, hf, hr, Prod.mk.injEq] at h
      exact ⟨replaceEntry es c sub1, h.1.symm⟩
    | file =>
      simp only [createDirAll, hf, Prod.mk.injEq] at h
      exact ⟨es, h.1.symm⟩
    | symlink t =>
      simp only [createDirAll, hf, Prod.mk.injEq] at h
      exact ⟨es, h.1.symm⟩
  | none =>
    rcases hr : createDirAll (FSNode.dir []) cs with ⟨sub1, err⟩
    simp only [createDirAll, hf, hr, Prod.mk.injEq] at h
    exact ⟨es ++ [(c, sub1)], h.1.symm⟩

theorem getAt_removeRoot_ne (es : List (String × FSNode)) (file c : String)
    (cs : List String) (h : c ≠ file) :
    getAt (FSNode.dir (removeEntry es file)) (c :: cs) =
      getAt (FSNode.dir es) (c :: cs) := by
  simp only [getAt, findEntry_removeEntry_ne es file c h]

/-- Setting a new final component under an existing directory chain succeeds,
places the node there, and touches no other root entry. -/
theorem setAt_ok (cs : List String) :
    ∀ (c : String) (es es' : List (String × FSNode)) (name : String) (node : FSNode),
    getAt (FSNode.dir es) (c :: cs) = some (FSNode.dir es') →
    ∃ es2, setAt (FSNode.dir es) ((c :: cs) ++ [name]) node = some (FSNode.dir es2)
      ∧ getAt (FSNode.dir es2) ((c :: cs) ++ [name]) = some node
      ∧ ∀ q, q ≠ c → findEntry es2 q = findEntry es q := by
  induction cs with
  | nil =>
    intro c es es' name node h
    rw [getAt_root_one] at h
    have hrepl : findEntry (replaceEntry es c (FSNode.dir (upsertEntry es' name node))) c
        = some (FSNode.dir (upsertEntry es' name node)) :=
      findEntry_replaceEntry_self es c _ (by rw [h]; exact Option.noConfusion)
    refine ⟨replaceEntry es c (FSNode.dir (upsertEntry es' name node)), ?_, ?_, ?_⟩
    · show setAt (FSNode.dir es) (c :: [name]) node = _
      rw [setAt_cons, h]
      simp [setAt_one]
    · show getAt _ (c :: [name]) = _
      simp [getAt, hrepl, getAt_root_one, findEntry_upsertEntry_self]
    · intro q hq
      exact findEntry_replaceEntry_ne es c q _ hq
  | cons c2 cs2 ih =>
    intro c es es' name node h
    have hstep : ∃ sub, findEntry es c = some sub
        ∧ getAt sub (c2 :: cs2) = some (FSNode.dir es') := by
      cases hf : findEntry es c with
      | none => simp [getAt, hf] at h
      | some sub => exact ⟨sub, rfl, by simpa [getAt, hf] using h⟩
    obtain ⟨sub, hf, hsub⟩ := hstep
    obtain ⟨es0, rfl⟩ : ∃ es0, sub = FSNode.dir es0 := by
      cases sub with
      | dir es0 => exact ⟨es0, rfl⟩
      | file => simp [getAt] at hsub
      | symlink t => simp [getAt] at hsub
    obtain ⟨es2', hset', hget', hframe'⟩ := ih c2 es0 es' name node hsub
    rw [List.cons_append] at hset' hget'
    have hrepl : findEntry (replaceEntry es c (FSNode.dir es2')) c
        = some (FSNode.dir es2') :=
      findEntry_replaceEntry_self es c _ (by rw [hf]; exact Option.noConfusion)
    refine ⟨replaceEntry es c (FSNode.dir es2'), ?_, ?_, ?_⟩
    · show setAt (FSNode.dir es) (c :: c2 :: (cs2 ++ [name])) node = _
      rw [setAt_cons, hf]
      simp only [hset', Option.map_some']
    · show getAt _ (c :: c2 :: (cs2 ++ [name])) = _
      simp only [getAt, hrepl]
      exact hget'
    · intro q hq
      exact findEntry_replaceEntry_ne es c q _ hq

/-! ## Claim C8 -/

/-- Claim C8 (confirmed): `move_files` first ensures the destination
directory subtree exists — creating all missing intermediate directories when
the destination does not yet exist — and then renames the entry into it,
preserving its filename: in the general fresh-destination conjunct the trace
records the creation strictly before the move, the source node ends up at
`dest/file`, and the root no longer holds `file`.  There is no pre-check or
special-casing of an existing same-name destination entry: renaming over an
existing file or symlink succeeds by platform replacement (second conjunct),
renaming onto a directory fails and the error is returned to the caller
(third conjunct), and a directory-creation failure is likewise returned
(fourth conjunct). -/
theorem C8_mover :
    (∀ (es : List (String × FSNode)) (file : String) (c : String) (cs : List String)
       (fs1 : FSNode) (n : FSNode),
       findEntry es file = some n →
       c ≠ file →
       (resolve (FSNode.dir es) (c :: cs)).isSome = false →
       createDirAll (FSNode.dir es) (c :: cs) = (fs1, none) →
       getAt fs1 ((c :: cs) ++ [file]) = none →
       (move_files (FSNode.dir es) file (c :: cs)).2 =
         ([Act.createdDir (c :: cs), Act.moved [file] ((c :: cs) ++ [file])], none)
       ∧ getAt (move_files (FSNode.dir es) file (c :: cs)).1 ((c :: cs) ++ [file])
           = some n
       ∧ getAt (move_files (FSNode.dir es) file (c :: cs)).1 [file] = none)
    ∧ move_files (FSNode.dir [("a.png", FSNode.file),
        ("other", FSNode.dir [("a.png", FSNode.symlink ["old"])])]) "a.png" ["other"] =
      (FSNode.dir [("other", FSNode.dir [("a.png", FSNode.file)])],
       [Act.moved ["a.png"] ["other", "a.png"]], none)
    ∧ move_files (FSNode.dir [("a.png", FSNode.file),
        ("other", FSNode.dir [("a.png", FSNode.dir [])])]) "a.png" ["other"] =
      (FSNode.dir [("a.png", FSNode.file),
        ("other", FSNode.dir [("a.png", FSNode.dir [])])],
       [], some (FErr.renameErr ["a.png"] ["other", "a.png"]))
    ∧ move_files (FSNode.dir [("2023-01-02x.png", FSNode.file), ("2023", FSNode.file)])
        "2023-01-02x.png" ["2023", "01", "02"] =
      (FSNode.dir [("2023-01-02x.png", FSNode.file), ("2023", FSNode.file)],
       [Act.createdDir ["2023", "01", "02"]],
       some (FErr.createDirErr ["2023", "01", "02"])) := by
  refine ⟨?_, rfl, rfl, rfl⟩
  intro es file c cs fs1 n hsrc hne hnoexist hcda hfresh
  obtain ⟨es1, rfl⟩ := createDirAll_cons_dir es c cs fs1 none hcda
  obtain ⟨es1', heq, hfr⟩ := createDirAll_root_frame es c cs file (fun hh => hne hh.symm)
  rw [hcda] at heq
  have h2 : FSNode.dir es1 = FSNode.dir es1' := heq
  injection h2 with h3
  subst h3
  have hsrc1 : findEntry es1 file = some n := by rw [hfr, hsrc]
  obtain ⟨esd, hchain⟩ := createDirAll_ok_getAt (c :: cs) es (FSNode.dir es1) hcda
  have hchain' : getAt (FSNode.dir (removeEntry es1 file)) (c :: cs)
      = some (FSNode.dir esd) := by
    rw [getAt_removeRoot_ne es1 file c cs hne]
    exact hchain
  obtain ⟨es2, hset, hget, hframe⟩ := setAt_ok cs c (removeEntry es1 file) esd file n hchain'
  have hren : renameFromRoot (FSNode.dir es1) file ((c :: cs) ++ [file])
      = some (FSNode.dir es2) := by
    unfold renameFromRoot
    simp only [hsrc1, hfresh]
    exact hset
  unfold move_files
  simp only [hnoexist, Bool.false_eq_true, if_false, hcda, hren]
  refine ⟨trivial, ?_, ?_⟩
  · exact hget
  · rw [getAt_root_one, hframe file (fun hh => hne hh.symm)]
    exact findEntry_removeEntry_self es1 file

/-- Witness for C8: moving `2024-03-05s.png` into the absent partition
`2024/03/05` creates the chain, then renames, leaving the file at the
destination and no longer at the root. -/
theorem C8_mover_witness :
    (move_files (FSNode.dir [("2024-03-05s.png", FSNode.file)]) "2024-03-05s.png"
        ["2024", "03", "05"]).2 =
      ([Act.createdDir ["2024", "03", "05"],
        Act.moved ["2024-03-05s.png"] ["2024", "03", "05", "2024-03-05s.png"]], none)
    ∧ getAt (move_files (FSNode.dir [("2024-03-05s.png", FSNode.file)]) "2024-03-05s.png"
        ["2024", "03", "05"]).1 ["2024", "03", "05", "2024-03-05s.png"] = some FSNode.file
    ∧ getAt (move_files (FSNode.dir [("2024-03-05s.png", FSNode.file)]) "2024-03-05s.png"
        ["2024", "03", "05"]).1 ["2024-03-05s.png"] = none :=
  C8_mover.1 [("2024-03-05s.png", FSNode.file)] "2024-03-05s.png" "2024" ["03", "05"]
    (FSNode.dir [("2024-03-05s.png", FSNode.file),
      ("2024", FSNode.dir [("03", FSNode.dir [("05", FSNode.dir [])])])])
    FSNode.file rfl (by decide) rfl rfl rfl
